import Mathlib

/-!
Shallow embedding of the bill-splitting application core
(`src/app.component.ts` and `src/models/bill.model.ts`).

Modelling conventions:
* JavaScript numbers are modelled as rationals (`ℚ`); the properties under
  scrutiny are the exact arithmetic identities of the summary calculator.
* The JavaScript `Map<string, Person>` is modelled as an association list
  in insertion order (`PeopleMap`), with `get` / `set` / `delete` mirroring
  the `Map` semantics: `set` of an existing key replaces the value in
  place, `set` of a fresh key appends, iteration is in list order.
* The asynchronous call to the interpretation collaborator is modelled by
  an `Except String (List Assignment)` parameter: `.error` is a thrown
  exception (caught by the `catch` block), `.ok` is a normal result.
-/

/-- Receipt line item (`ReceiptItem` in `bill.model.ts`). -/
structure ReceiptItem where
  id : Nat
  name : String
  price : ℚ
  assignedTo : List String
deriving DecidableEq, Repr

/-- Person record (`Person` in `bill.model.ts`). -/
structure Person where
  name : String
  items : List ReceiptItem
deriving DecidableEq, Repr

/-- Transient assignment pair (`Assignment` in `bill.model.ts`). -/
structure Assignment where
  personName : String
  itemName : String
deriving DecidableEq, Repr

/-- Per-person summary record (the value type of `BillSummary`). -/
structure PersonSummary where
  subtotal : ℚ
  tax : ℚ
  tip : ℚ
  total : ℚ
deriving DecidableEq, Repr

/-- The `Map<string, Person>` of the component, as an association list in
insertion order. -/
abbrev PeopleMap := List (String × Person)

/-- JavaScript `Map.get`. -/
def mapGet (m : PeopleMap) (k : String) : Option Person :=
  (m.find? fun kp => kp.1 == k).map Prod.snd

/-- JavaScript `Map.set`: replace in place when the key is present,
append otherwise. -/
def mapSet (m : PeopleMap) (k : String) (v : Person) : PeopleMap :=
  if m.any fun kp => kp.1 == k then
    m.map fun kp => if kp.1 == k then (k, v) else kp
  else m ++ [(k, v)]

/-- JavaScript `Map.delete`. -/
def mapDelete (m : PeopleMap) (k : String) : PeopleMap :=
  m.filter fun kp => !(kp.1 == k)

/-- Model of JavaScript `String.prototype.toLowerCase()`: per-character
lowercasing, written structurally over the character list. -/
def strToLower (s : String) : String :=
  String.mk (s.data.map Char.toLower)

/-- Model of JavaScript `String.prototype.trim()`: strip leading and
trailing whitespace, written structurally over the character list. -/
def strTrim (s : String) : String :=
  String.mk ((s.data.dropWhile Char.isWhitespace).reverse.dropWhile
    Char.isWhitespace).reverse

/-- The `capitalize` helper: first character uppercased, rest unchanged;
the empty string maps to the empty string. -/
def capitalize (s : String) : String :=
  match s.data with
  | [] => ""
  | c :: cs => String.mk (c.toUpper :: cs)

/-- Item-side application of one assignment batch (the
`newReceiptItems = newReceiptItems.map(...)` step of `handleChatMessage`,
lines 139-146): an unassigned item matched case-insensitively by name
gains the capitalized person name of every matching assignment. -/
def applyAssignmentsItems (assignments : List Assignment)
    (items : List ReceiptItem) : List ReceiptItem :=
  items.map fun item =>
    let assignmentsForItem := assignments.filter fun a =>
      (strToLower a.itemName == strToLower item.name) && (item.assignedTo.length == 0)
    if assignmentsForItem.length > 0 then
      { item with assignedTo :=
          item.assignedTo ++ assignmentsForItem.map fun a => capitalize a.personName }
    else item

/-- Person-side effect of one assignment (body of the
`assignments.forEach(...)` loop of `handleChatMessage`, lines 149-161):
find the first item matching by name, and add it to the named (capitalized)
person, deduplicating by item identifier. -/
def addAssignmentToPeople (newItems : List ReceiptItem)
    (people : PeopleMap) (a : Assignment) : PeopleMap :=
  match newItems.find? fun i => strToLower i.name == strToLower a.itemName with
  | none => people
  | some updatedItem =>
    let personName := capitalize a.personName
    let person := (mapGet people personName).getD { name := personName, items := [] }
    if person.items.any fun i => i.id == updatedItem.id then people
    else mapSet people personName { person with items := person.items ++ [updatedItem] }

/-- Re-synchronization step (lines 164-167): every item reference held by
a person is re-pointed at the current item object with the same id. The
source asserts with a non-null assertion that the lookup succeeds; the
model keeps the old reference in the (unreachable) case where no current
item has the id. -/
def syncPeople (newItems : List ReceiptItem) (people : PeopleMap) : PeopleMap :=
  people.map fun kp =>
    (kp.1, { kp.2 with
      items := kp.2.items.map fun i => ((newItems.find? fun n => n.id == i.id).getD i) })

/-- The non-empty-batch branch of `handleChatMessage` (lines 135-170):
item-side update, person-side update folded over the batch, then the
re-synchronization pass. -/
def applyBatch (assignments : List Assignment) (items : List ReceiptItem)
    (people : PeopleMap) : List ReceiptItem × PeopleMap :=
  let newReceiptItems := applyAssignmentsItems assignments items
  let peopleToUpdate := assignments.foldl (addAssignmentToPeople newReceiptItems) people
  (newReceiptItems, syncPeople newReceiptItems peopleToUpdate)

/-- Item side of `unassignItem` (lines 197-207): drop the person name from
the `assignedTo` list of the item with the matching id. -/
def unassignItems (itemToUnassign : ReceiptItem) (personName : String)
    (items : List ReceiptItem) : List ReceiptItem :=
  items.map fun item =>
    if item.id == itemToUnassign.id then
      { item with assignedTo := item.assignedTo.filter fun p => !(p == personName) }
    else item

/-- Person side of `unassignItem` (lines 209-221): drop the item from the
named person; delete the person when no items remain. -/
def unassignPeople (itemToUnassign : ReceiptItem) (personName : String)
    (people : PeopleMap) : PeopleMap :=
  match mapGet people personName with
  | none => people
  | some person =>
    let updatedItems := person.items.filter fun i => !(i.id == itemToUnassign.id)
    if updatedItems.length == 0 then mapDelete people personName
    else mapSet people personName { person with items := updatedItems }

/-- The `unassignItem` operation (lines 196-222). -/
def unassignItem (itemToUnassign : ReceiptItem) (personName : String)
    (items : List ReceiptItem) (people : PeopleMap) :
    List ReceiptItem × PeopleMap :=
  (unassignItems itemToUnassign personName items,
   unassignPeople itemToUnassign personName people)

/-- The `subtotal` computed signal (line 35). -/
def subtotal (items : List ReceiptItem) : ℚ :=
  items.foldl (fun acc item => acc + item.price) 0

/-- Per-person subtotal inside `billSummary` (lines 48-50): each held item
contributes its price divided by the number of its assignees. -/
def personSubtotal (person : Person) : ℚ :=
  person.items.foldl (fun acc item => acc + item.price / (item.assignedTo.length : ℚ)) 0

/-- The `billSummary` computed signal (lines 38-66), as an association
list from person name to summary record, in map iteration order. -/
def billSummary (items : List ReceiptItem) (people : PeopleMap)
    (tax tip : ℚ) : List (String × PersonSummary) :=
  if subtotal items = 0 then []
  else people.map fun kp =>
    let personSub := personSubtotal kp.2
    let proportion := personSub / subtotal items
    (kp.1,
      { subtotal := personSub
        tax := tax * proportion
        tip := tip * proportion
        total := personSub + tax * proportion + tip * proportion })

/-- Chat message roles (`ChatMessage.role` in `bill.model.ts`). -/
inductive ChatRole
  | user
  | model
  | system
deriving DecidableEq, Repr

/-- Chat transcript entry (`ChatMessage` in `bill.model.ts`). -/
structure ChatMessage where
  role : ChatRole
  text : String
deriving DecidableEq, Repr

/-- Application states of the session state machine (line 18). -/
inductive AppState
  | welcome
  | parsing
  | splitting
  | error
deriving DecidableEq, Repr

/-- The mutable signals of `AppComponent` relevant to chat handling. -/
structure AppComponentState where
  appState : AppState
  errorMessage : Option String
  receiptItems : List ReceiptItem
  tax : ℚ
  tip : ℚ
  people : PeopleMap
  chatHistory : List ChatMessage
  userMessage : String
  isProcessingChat : Bool
deriving DecidableEq, Repr

/-- Informational reply when the interpretation produced no assignments
(line 133). -/
def noAssignMessage : String :=
  "I couldn\x27t find any items to assign from your message. Try again?"

/-- Confirmation reply listing the applied assignments (line 172). -/
def assignedResponseText (assignments : List Assignment) : String :=
  "Assigned:" ++ String.join
    (assignments.map fun a => "\n- " ++ a.itemName ++ " to " ++ capitalize a.personName)

/-- The `handleChatMessage` handler (lines 116-182). The interpretation
result is a parameter: `.error msg` models the awaited call throwing an
error with that message (landing in the `catch` block), `.ok` a normal
completion. The `finally` block is reflected in `isProcessingChat` being
reset on every path that set it. -/
def handleChatMessage (interpResult : Except String (List Assignment))
    (st : AppComponentState) : AppComponentState :=
  let message := strTrim st.userMessage
  if message == "" || st.isProcessingChat then st
  else
    let st1 := { st with
      isProcessingChat := true
      chatHistory := st.chatHistory ++ [ChatMessage.mk ChatRole.user message]
      userMessage := "" }
    match interpResult with
    | Except.error msg =>
      { st1 with
        chatHistory := st1.chatHistory ++ [ChatMessage.mk ChatRole.model msg]
        isProcessingChat := false }
    | Except.ok assignments =>
      if assignments.length == 0 then
        { st1 with
          chatHistory := st1.chatHistory ++ [ChatMessage.mk ChatRole.model noAssignMessage]
          isProcessingChat := false }
      else
        let result := applyBatch assignments st.receiptItems st.people
        { st1 with
          receiptItems := result.1
          people := result.2
          chatHistory := st1.chatHistory ++
            [ChatMessage.mk ChatRole.model (assignedResponseText assignments)]
          isProcessingChat := false }

/-! ### Derived notions used by the verified properties -/

/-- The identity-relevant fields of an item: everything except the
assignment list. -/
def itemFrame (it : ReceiptItem) : Nat × String × ℚ :=
  (it.id, it.name, it.price)

/-- Reconciliation invariant as specified: every record a person holds is
a current item (same id, name, price and assignment contents) and that
item lists the person. -/
def SyncInv (items : List ReceiptItem) (people : PeopleMap) : Prop :=
  ∀ kp ∈ people, ∀ r ∈ kp.2.items, r ∈ items ∧ kp.1 ∈ r.assignedTo

/-- Weak, identifier-level form of the invariant: every held record points
(by id) at a current item that lists the person, but the held copy itself
may be stale. -/
def WeakInv (items : List ReceiptItem) (people : PeopleMap) : Prop :=
  ∀ kp ∈ people, ∀ r ∈ kp.2.items, ∃ cur ∈ items,
    cur.id = r.id ∧ kp.1 ∈ cur.assignedTo

/-- An assignment only targets currently unassigned items: every item its
name matches (case-insensitively) has an empty assignment list. -/
def TargetsUnassigned (a : Assignment) (items : List ReceiptItem) : Prop :=
  ∀ it ∈ items, strToLower it.name = strToLower a.itemName → it.assignedTo = []

/-- Exact correspondence between the item side and the person side of the
session state, together with the intended uniqueness constraints. -/
def ExactCorrespondence (items : List ReceiptItem) (people : PeopleMap) : Prop :=
  (∀ kp ∈ people, ∀ r ∈ kp.2.items, r ∈ items ∧ kp.1 ∈ r.assignedTo) ∧
  (∀ it ∈ items, ∀ n ∈ it.assignedTo, ∃ kp ∈ people, kp.1 = n ∧ it ∈ kp.2.items) ∧
  (items.map (fun it => it.id)).Nodup ∧
  (people.map (fun kp => kp.1)).Nodup ∧
  (∀ it ∈ items, it.assignedTo.Nodup) ∧
  (∀ kp ∈ people, (kp.2.items.map (fun it => it.id)).Nodup)

/-- Capitalized person names of the assignments matching an item by
case-insensitive name, in batch order. -/
def matchingNames (assignments : List Assignment) (item : ReceiptItem) : List String :=
  (assignments.filter fun a => strToLower a.itemName == strToLower item.name).map
    fun a => capitalize a.personName

instance (items : List ReceiptItem) (people : PeopleMap) :
    Decidable (SyncInv items people) := by
  unfold SyncInv; infer_instance

instance (items : List ReceiptItem) (people : PeopleMap) :
    Decidable (WeakInv items people) := by
  unfold WeakInv; infer_instance

instance (a : Assignment) (items : List ReceiptItem) :
    Decidable (TargetsUnassigned a items) := by
  unfold TargetsUnassigned; infer_instance

instance (items : List ReceiptItem) (people : PeopleMap) :
    Decidable (ExactCorrespondence items people) := by
  unfold ExactCorrespondence; infer_instance

/-- Sum of the per-person subtotals over the whole person map. -/
def sumPersonSubtotals (people : PeopleMap) : ℚ :=
  (people.map fun kp => personSubtotal kp.2).sum

/-! ### Concrete sample data used in witnesses and counterexamples -/

/-- Session state right after a successful extraction of a one-item
receipt, ready for chat-based splitting. -/
def burgerStartState : AppComponentState :=
  { appState := AppState.splitting
    errorMessage := none
    receiptItems := [ReceiptItem.mk 0 "burger" 10 []]
    tax := 1
    tip := 2
    people := []
    chatHistory := [ChatMessage.mk ChatRole.system "Receipt parsed!"]
    userMessage := "m1"
    isProcessingChat := false }

/-- State after the first chat message assigns the burger to alice. -/
def burgerStateOne : AppComponentState :=
  handleChatMessage (Except.ok [Assignment.mk "alice" "burger"]) burgerStartState

/-- State after a second chat message names the already-assigned burger
for bob: the interpretation collaborator is prompted, but not forced, to
stay within the unassigned items. -/
def burgerStateTwo : AppComponentState :=
  handleChatMessage (Except.ok [Assignment.mk "bob" "burger"])
    { burgerStateOne with userMessage := "m2" }

/-- One unassigned fries item. -/
def friesStart : List ReceiptItem :=
  [ReceiptItem.mk 0 "Fries" 4 []]

/-- A batch sharing the fries between jane and john. -/
def shareBatch : List Assignment :=
  [Assignment.mk "jane" "fries", Assignment.mk "john" "fries"]

/-- Items and people after sharing the fries. -/
def afterShare : List ReceiptItem × PeopleMap :=
  applyBatch shareBatch friesStart []

/-- Items and people after Jane is then unassigned from the shared
fries. -/
def afterJaneUnassigned : List ReceiptItem × PeopleMap :=
  unassignItem (ReceiptItem.mk 0 "Fries" 4 ["Jane", "John"]) "Jane"
    afterShare.1 afterShare.2

/-- The worked example of the specification: burger for David, fries
shared by Jane and John. -/
def specItems : List ReceiptItem :=
  [ReceiptItem.mk 0 "Burger" 10 ["David"], ReceiptItem.mk 1 "Fries" 4 ["Jane", "John"]]

/-- Person map matching `specItems` exactly. -/
def specPeople : PeopleMap :=
  [("David", Person.mk "David" [ReceiptItem.mk 0 "Burger" 10 ["David"]]),
   ("Jane", Person.mk "Jane" [ReceiptItem.mk 1 "Fries" 4 ["Jane", "John"]]),
   ("John", Person.mk "John" [ReceiptItem.mk 1 "Fries" 4 ["Jane", "John"]])]

/-! ### Helper lemmas -/

theorem foldl_add_eq_add_sum {α : Type} (f : α → ℚ) (l : List α) (init : ℚ) :
    l.foldl (fun acc x => acc + f x) init = init + (l.map f).sum := by
  induction l generalizing init with
  | nil => simp
  | cons x xs ih => simp [ih, add_assoc]

theorem subtotal_eq_sum (items : List ReceiptItem) :
    subtotal items = (items.map fun it => it.price).sum := by
  simpa using foldl_add_eq_add_sum (fun it => it.price) items 0

theorem personSubtotal_eq_sum (person : Person) :
    personSubtotal person =
      (person.items.map fun it => it.price / (it.assignedTo.length : ℚ)).sum := by
  simpa using
    foldl_add_eq_add_sum (fun it => it.price / (it.assignedTo.length : ℚ)) person.items 0

/-- Characterization of the item-side batch update: an item unassigned at
the start of the batch ends with exactly the capitalized person names of
the assignments matching it by name; any other item is untouched. -/
theorem applyAssignmentsItems_eq (assignments : List Assignment)
    (items : List ReceiptItem) :
    applyAssignmentsItems assignments items = items.map fun item =>
      if item.assignedTo = [] then { item with assignedTo := matchingNames assignments item }
      else item := by
  unfold applyAssignmentsItems matchingNames
  apply List.map_congr_left
  intro item _
  obtain ⟨i, n, pr, asg⟩ := item
  by_cases h : asg = []
  · subst h
    simp only [List.length_nil]
    by_cases h2 : (assignments.filter fun a => strToLower a.itemName == strToLower n).length > 0
    · simp_all
    · have h3 : (assignments.filter fun a => strToLower a.itemName == strToLower n) = [] :=
        List.eq_nil_of_length_eq_zero (Nat.eq_zero_of_not_pos h2)
      simp_all
  · have hlen : (asg.length == 0) = false := by
      simp [List.length_eq_zero, h]
    simp [hlen, h]

theorem applyAssignmentsItems_frame (assignments : List Assignment)
    (items : List ReceiptItem) :
    (applyAssignmentsItems assignments items).map itemFrame = items.map itemFrame := by
  rw [applyAssignmentsItems_eq, List.map_map]
  apply List.map_congr_left
  intro item _
  by_cases h : item.assignedTo = [] <;> simp [h, itemFrame]

theorem applyAssignmentsItems_ids (assignments : List Assignment)
    (items : List ReceiptItem) :
    (applyAssignmentsItems assignments items).map (fun it => it.id) =
      items.map fun it => it.id := by
  have h := congrArg (List.map fun fr => fr.1) (applyAssignmentsItems_frame assignments items)
  simpa [List.map_map, itemFrame, Function.comp] using h

theorem unassignItems_frame (itemToUnassign : ReceiptItem) (personName : String)
    (items : List ReceiptItem) :
    (unassignItems itemToUnassign personName items).map itemFrame = items.map itemFrame := by
  unfold unassignItems
  rw [List.map_map]
  apply List.map_congr_left
  intro item _
  by_cases h : item.id = itemToUnassign.id <;> simp [h, itemFrame]

theorem unassignItems_ids (itemToUnassign : ReceiptItem) (personName : String)
    (items : List ReceiptItem) :
    (unassignItems itemToUnassign personName items).map (fun it => it.id) =
      items.map fun it => it.id := by
  have h := congrArg (List.map fun fr => fr.1)
    (unassignItems_frame itemToUnassign personName items)
  simpa [List.map_map, itemFrame, Function.comp] using h

/-! ### C10 -/

/-- C10: applying a batch of assignments and unassigning a person from an
item never add or remove receipt items and never change an item id, name,
or price; the item list keeps its length and order and only the
`assignedTo` lists can differ. -/
theorem operations_item_frame (assignments : List Assignment)
    (itemToUnassign : ReceiptItem) (personName : String)
    (items : List ReceiptItem) (people : PeopleMap) :
    (applyBatch assignments items people).1.map itemFrame = items.map itemFrame ∧
    (unassignItem itemToUnassign personName items people).1.map itemFrame =
      items.map itemFrame := by
  exact ⟨applyAssignmentsItems_frame assignments items,
    unassignItems_frame itemToUnassign personName items⟩

/-! ### C4 -/

/-- C4: in a batch application, an assignment targets exactly the items
matching its name case-insensitively that are unassigned at the start of
the batch; each targeted item ends with the capitalized person names of
all assignments matching it (accumulating shared assignments), while items
with a non-empty assignment list are left unchanged. -/
theorem applyBatch_item_side (assignments : List Assignment)
    (items : List ReceiptItem) (people : PeopleMap) :
    (applyBatch assignments items people).1 = items.map fun item =>
      if item.assignedTo = [] then { item with assignedTo := matchingNames assignments item }
      else item := by
  exact applyAssignmentsItems_eq assignments items

/-! ### C8 -/

/-- C8: when the overall subtotal is zero (in particular for the empty
item list), the summary calculator returns the empty mapping for every
person map, tax and tip, and no division is performed. -/
theorem billSummary_zero_subtotal (items : List ReceiptItem) (people : PeopleMap)
    (tax tip : ℚ) (h : subtotal items = 0) :
    billSummary items people tax tip = [] := by
  simp [billSummary, h]

theorem billSummary_zero_subtotal_witness :
    billSummary [] [("Ann", Person.mk "Ann" [])] 3 5 = [] ∧
    billSummary [ReceiptItem.mk 0 "Water" 0 ["Ann"]]
      [("Ann", Person.mk "Ann" [ReceiptItem.mk 0 "Water" 0 ["Ann"]])] 3 5 = [] :=
  ⟨billSummary_zero_subtotal _ _ 3 5 rfl,
   billSummary_zero_subtotal _ _ 3 5 (by norm_num [subtotal])⟩

/-! ### C2 -/

/-- C2: with nonzero overall subtotal, the summary maps each person of the
map to a record whose subtotal is the sum over the held items of price
divided by the number of assignees, whose tax and tip are the overall tax
and tip scaled by the proportion of the person subtotal in the overall
subtotal, and whose total is their sum. -/
theorem billSummary_per_person (items : List ReceiptItem) (people : PeopleMap)
    (tax tip : ℚ) (name : String) (person : Person)
    (h : subtotal items ≠ 0) (hp : (name, person) ∈ people) :
    (name,
      PersonSummary.mk (personSubtotal person)
        (tax * (personSubtotal person / subtotal items))
        (tip * (personSubtotal person / subtotal items))
        (personSubtotal person + tax * (personSubtotal person / subtotal items)
          + tip * (personSubtotal person / subtotal items)))
      ∈ billSummary items people tax tip ∧
    personSubtotal person =
      (person.items.map fun it => it.price / (it.assignedTo.length : ℚ)).sum := by
  refine ⟨?_, personSubtotal_eq_sum person⟩
  unfold billSummary
  rw [if_neg h]
  exact List.mem_map.mpr ⟨(name, person), hp, rfl⟩

theorem billSummary_per_person_witness :
    ("Jane",
      PersonSummary.mk (personSubtotal (Person.mk "Jane" [ReceiptItem.mk 1 "Fries" 4 ["Jane", "John"]]))
        (1 * (personSubtotal (Person.mk "Jane" [ReceiptItem.mk 1 "Fries" 4 ["Jane", "John"]]) /
          subtotal [ReceiptItem.mk 0 "Burger" 10 ["David"], ReceiptItem.mk 1 "Fries" 4 ["Jane", "John"]]))
        (2 * (personSubtotal (Person.mk "Jane" [ReceiptItem.mk 1 "Fries" 4 ["Jane", "John"]]) /
          subtotal [ReceiptItem.mk 0 "Burger" 10 ["David"], ReceiptItem.mk 1 "Fries" 4 ["Jane", "John"]]))
        (personSubtotal (Person.mk "Jane" [ReceiptItem.mk 1 "Fries" 4 ["Jane", "John"]]) +
          1 * (personSubtotal (Person.mk "Jane" [ReceiptItem.mk 1 "Fries" 4 ["Jane", "John"]]) /
            subtotal [ReceiptItem.mk 0 "Burger" 10 ["David"], ReceiptItem.mk 1 "Fries" 4 ["Jane", "John"]]) +
          2 * (personSubtotal (Person.mk "Jane" [ReceiptItem.mk 1 "Fries" 4 ["Jane", "John"]]) /
            subtotal [ReceiptItem.mk 0 "Burger" 10 ["David"], ReceiptItem.mk 1 "Fries" 4 ["Jane", "John"]])))
      ∈ billSummary [ReceiptItem.mk 0 "Burger" 10 ["David"], ReceiptItem.mk 1 "Fries" 4 ["Jane", "John"]]
          [("David", Person.mk "David" [ReceiptItem.mk 0 "Burger" 10 ["David"]]),
           ("Jane", Person.mk "Jane" [ReceiptItem.mk 1 "Fries" 4 ["Jane", "John"]])] 1 2 ∧
    personSubtotal (Person.mk "Jane" [ReceiptItem.mk 1 "Fries" 4 ["Jane", "John"]]) =
      ((Person.mk "Jane" [ReceiptItem.mk 1 "Fries" 4 ["Jane", "John"]]).items.map
        fun it => it.price / (it.assignedTo.length : ℚ)).sum :=
  billSummary_per_person _ _ 1 2 "Jane" _ (by norm_num [subtotal]) (by decide)

/-! ### C7 -/

/-- C7: when the interpretation result is an empty batch, the item list,
person map, application state and error signal are left unchanged, and an
informational model message is appended to the transcript. -/
theorem empty_batch_identity (st : AppComponentState)
    (hmsg : strTrim st.userMessage ≠ "") (hbusy : st.isProcessingChat = false) :
    (handleChatMessage (Except.ok []) st).receiptItems = st.receiptItems ∧
    (handleChatMessage (Except.ok []) st).people = st.people ∧
    (handleChatMessage (Except.ok []) st).appState = st.appState ∧
    (handleChatMessage (Except.ok []) st).errorMessage = st.errorMessage ∧
    (handleChatMessage (Except.ok []) st).chatHistory =
      st.chatHistory ++ [ChatMessage.mk ChatRole.user (strTrim st.userMessage),
        ChatMessage.mk ChatRole.model noAssignMessage] := by
  have h1 : (strTrim st.userMessage == "") = false := beq_eq_false_iff_ne.mpr hmsg
  unfold handleChatMessage
  simp [h1, hbusy]

theorem empty_batch_identity_witness :
    (handleChatMessage (Except.ok []) burgerStartState).receiptItems =
      burgerStartState.receiptItems ∧
    (handleChatMessage (Except.ok []) burgerStartState).people = burgerStartState.people ∧
    (handleChatMessage (Except.ok []) burgerStartState).appState =
      burgerStartState.appState ∧
    (handleChatMessage (Except.ok []) burgerStartState).errorMessage =
      burgerStartState.errorMessage ∧
    (handleChatMessage (Except.ok []) burgerStartState).chatHistory =
      burgerStartState.chatHistory ++
        [ChatMessage.mk ChatRole.user (strTrim burgerStartState.userMessage),
         ChatMessage.mk ChatRole.model noAssignMessage] :=
  empty_batch_identity burgerStartState (by decide) (by decide)

/-! ### C9 -/

/-- C9: for every outcome of the interpretation call the busy flag ends
cleared and the application state is untouched (so a `splitting` session
stays in `splitting`); when the call throws, the error text is appended to
the transcript as a model message. -/
theorem chat_failure_handling (st : AppComponentState)
    (interpResult : Except String (List Assignment))
    (hmsg : strTrim st.userMessage ≠ "") (hbusy : st.isProcessingChat = false) :
    (handleChatMessage interpResult st).isProcessingChat = false ∧
    (handleChatMessage interpResult st).appState = st.appState ∧
    ∀ msg, interpResult = Except.error msg →
      (handleChatMessage interpResult st).chatHistory =
        st.chatHistory ++ [ChatMessage.mk ChatRole.user (strTrim st.userMessage),
          ChatMessage.mk ChatRole.model msg] := by
  have h1 : (strTrim st.userMessage == "") = false := beq_eq_false_iff_ne.mpr hmsg
  cases interpResult with
  | error msg =>
    unfold handleChatMessage
    simp [h1, hbusy]
  | ok assignments =>
    unfold handleChatMessage
    by_cases h2 : assignments.length = 0
    · simp [h1, hbusy, h2]
    · have h2' : (assignments.length == 0) = false := by
        simp [h2]
      simp [h1, hbusy, h2']

theorem chat_failure_handling_witness :
    (handleChatMessage (Except.error "boom") burgerStartState).isProcessingChat = false ∧
    (handleChatMessage (Except.error "boom") burgerStartState).appState =
      burgerStartState.appState ∧
    ∀ msg, (Except.error "boom" : Except String (List Assignment)) = Except.error msg →
      (handleChatMessage (Except.error "boom") burgerStartState).chatHistory =
        burgerStartState.chatHistory ++
          [ChatMessage.mk ChatRole.user (strTrim burgerStartState.userMessage),
           ChatMessage.mk ChatRole.model msg] :=
  chat_failure_handling burgerStartState (Except.error "boom") (by decide) (by decide)

/-! ### Association-list map lemmas -/

theorem mapGet_mem (m : PeopleMap) (k : String) (v : Person)
    (h : mapGet m k = some v) : (k, v) ∈ m := by
  unfold mapGet at h
  cases hf : m.find? fun kp => kp.1 == k with
  | none => rw [hf] at h; simp at h
  | some kp =>
    rw [hf] at h
    simp only [Option.map_some', Option.some.injEq] at h
    have hmem := List.mem_of_find?_eq_some hf
    have hpred := List.find?_some hf
    have hk : kp.1 = k := by simpa using hpred
    obtain ⟨k0, v0⟩ := kp
    simp only at hk h
    rw [hk, h] at hmem
    exact hmem

theorem mapGet_none_forall (m : PeopleMap) (k : String)
    (h : mapGet m k = none) : ∀ kp ∈ m, kp.1 ≠ k := by
  unfold mapGet at h
  rw [Option.map_eq_none'] at h
  intro kp hkp
  have := List.find?_eq_none.mp h kp hkp
  simpa using this

theorem mapGet_mapDelete (m : PeopleMap) (k : String) :
    mapGet (mapDelete m k) k = none := by
  unfold mapGet mapDelete
  rw [Option.map_eq_none']
  rw [List.find?_eq_none]
  intro kp hkp
  have h2 := (List.mem_filter.mp hkp).2
  simpa using h2

theorem mem_mapDelete (m : PeopleMap) (k : String) (kp : String × Person)
    (h : kp ∈ mapDelete m k) : kp ∈ m ∧ kp.1 ≠ k := by
  unfold mapDelete at h
  have h1 := List.mem_filter.mp h
  refine ⟨h1.1, ?_⟩
  have h2 := h1.2
  simpa using h2

theorem find?_setmap (m : PeopleMap) (k : String) (v : Person)
    (h : (m.any fun kp => kp.1 == k) = true) :
    ((m.map fun kp => if kp.1 == k then (k, v) else kp).find? fun kp => kp.1 == k) =
      some (k, v) := by
  induction m with
  | nil => simp at h
  | cons hd tl ih =>
    by_cases hh : hd.1 == k
    · simp [hh, List.find?]
    · have hh' : (hd.1 == k) = false := by simpa using hh
      have htl : (tl.any fun kp => kp.1 == k) = true := by
        simpa [List.any_cons, hh'] using h
      simpa [List.find?, hh'] using ih htl

theorem mapGet_mapSet_self (m : PeopleMap) (k : String) (v : Person) :
    mapGet (mapSet m k v) k = some v := by
  unfold mapGet mapSet
  by_cases hany : (m.any fun kp => kp.1 == k) = true
  · rw [if_pos hany, find?_setmap m k v hany]
    rfl
  · rw [if_neg hany]
    have hnone : (m.find? fun kp => kp.1 == k) = none := by
      rw [List.find?_eq_none]
      intro kp hkp
      intro hcontra
      exact hany (List.any_eq_true.mpr ⟨kp, hkp, hcontra⟩)
    rw [List.find?_append, hnone]
    simp [List.find?]

theorem mem_mapSet (m : PeopleMap) (k : String) (v : Person) (kp : String × Person)
    (h : kp ∈ mapSet m k v) : kp = (k, v) ∨ (kp ∈ m ∧ kp.1 ≠ k) := by
  unfold mapSet at h
  by_cases hany : (m.any fun kp => kp.1 == k) = true
  · rw [if_pos hany] at h
    rcases List.mem_map.mp h with ⟨kp0, hkp0, heq⟩
    by_cases hh : (kp0.1 == k) = true
    · left
      rw [← heq, if_pos hh]
    · right
      rw [← heq, if_neg hh]
      exact ⟨hkp0, by simpa using hh⟩
  · rw [if_neg hany] at h
    rcases List.mem_append.mp h with h1 | h1
    · right
      refine ⟨h1, ?_⟩
      intro hcontra
      apply hany
      exact List.any_eq_true.mpr ⟨kp, h1, by simpa using hcontra⟩
    · left; simpa using h1

/-! ### C5 -/

/-- C5 counterexample: applying a batch that contains the same
(personName, itemName) pair twice to a single unassigned matching item
puts the capitalized person name into the assignment list twice, so not
every reachable item has a duplicate-free assignment list. -/
theorem duplicate_pair_dup_assignedTo_cex :
    ¬ ∀ it ∈ (applyBatch [Assignment.mk "alice" "burger", Assignment.mk "alice" "burger"]
        [ReceiptItem.mk 0 "burger" 10 []] []).1, it.assignedTo.Nodup := by
  decide

/-- C5 amended: assignment lists stay duplicate-free across a batch
application provided every item starts duplicate-free and, for each item,
the capitalized person names of the assignments matching it are pairwise
distinct (which excludes a batch containing the same pair twice). -/
theorem assignedTo_nodup_amended (assignments : List Assignment)
    (items : List ReceiptItem) (people : PeopleMap)
    (h1 : ∀ item ∈ items, item.assignedTo.Nodup)
    (h2 : ∀ item ∈ items, (matchingNames assignments item).Nodup) :
    ∀ it ∈ (applyBatch assignments items people).1, it.assignedTo.Nodup := by
  intro it hit
  have hit' : it ∈ applyAssignmentsItems assignments items := hit
  rw [applyAssignmentsItems_eq] at hit'
  rcases List.mem_map.mp hit' with ⟨item, hmem, heq⟩
  by_cases h : item.assignedTo = []
  · rw [← heq, if_pos h]
    exact h2 item hmem
  · rw [← heq, if_neg h]
    exact h1 item hmem

theorem assignedTo_nodup_amended_witness :
    (ReceiptItem.mk 0 "Fries" 4 ["Jane", "John"]).assignedTo.Nodup :=
  assignedTo_nodup_amended [Assignment.mk "jane" "fries", Assignment.mk "john" "fries"]
    [ReceiptItem.mk 0 "Fries" 4 []] [] (by decide) (by decide)
    (ReceiptItem.mk 0 "Fries" 4 ["Jane", "John"]) (by decide)

/-! ### C6 -/

/-- C6: unassigning a person from an item removes the person name from the
assignment list of the item with that id, removes the item from the person
record, deletes the person from the map exactly when no items remain
(keeping the reduced record otherwise), and never adds or removes receipt
items. -/
theorem unassignItem_spec (itemToUnassign : ReceiptItem) (personName : String)
    (items : List ReceiptItem) (people : PeopleMap) (person : Person)
    (hp : mapGet people personName = some person) :
    (unassignItem itemToUnassign personName items people).1.length = items.length ∧
    (unassignItem itemToUnassign personName items people).1.map (fun it => it.id) =
      items.map (fun it => it.id) ∧
    (∀ it ∈ (unassignItem itemToUnassign personName items people).1,
      it.id = itemToUnassign.id → personName ∉ it.assignedTo) ∧
    ((person.items.filter fun i => !(i.id == itemToUnassign.id)) = [] →
      mapGet (unassignItem itemToUnassign personName items people).2 personName = none) ∧
    (∀ _ : (person.items.filter fun i => !(i.id == itemToUnassign.id)) ≠ [],
      mapGet (unassignItem itemToUnassign personName items people).2 personName =
        some { person with items := person.items.filter fun i => !(i.id == itemToUnassign.id) }) := by
  refine ⟨?_, unassignItems_ids itemToUnassign personName items, ?_, ?_, ?_⟩
  · unfold unassignItem unassignItems
    exact List.length_map items _
  · intro it hit hid
    have hit' : it ∈ unassignItems itemToUnassign personName items := hit
    unfold unassignItems at hit'
    rcases List.mem_map.mp hit' with ⟨item, _, heq⟩
    by_cases h : (item.id == itemToUnassign.id) = true
    · rw [← heq, if_pos h]
      intro hcontra
      have := (List.mem_filter.mp hcontra).2
      simp at this
    · rw [← heq, if_neg h] at hid ⊢
      exact absurd hid (by simpa using h)
  · intro hempty
    show mapGet (unassignPeople itemToUnassign personName people) personName = none
    unfold unassignPeople
    rw [hp]
    dsimp only
    rw [hempty]
    simp only [List.length_nil]
    simpa using mapGet_mapDelete people personName
  · intro hne
    show mapGet (unassignPeople itemToUnassign personName people) personName = _
    unfold unassignPeople
    rw [hp]
    dsimp only
    have hlen : ((person.items.filter fun i => !(i.id == itemToUnassign.id)).length == 0) = false := by
      simpa [List.length_eq_zero] using hne
    rw [hlen]
    simp only [Bool.false_eq_true, if_false]
    exact mapGet_mapSet_self people personName _

theorem unassignItem_spec_witness :
    (unassignItem (ReceiptItem.mk 0 "Fries" 4 ["Jane", "John"]) "Jane"
        afterShare.1 afterShare.2).1.length = afterShare.1.length ∧
    (unassignItem (ReceiptItem.mk 0 "Fries" 4 ["Jane", "John"]) "Jane"
        afterShare.1 afterShare.2).1.map (fun it => it.id) =
      afterShare.1.map (fun it => it.id) ∧
    (∀ it ∈ (unassignItem (ReceiptItem.mk 0 "Fries" 4 ["Jane", "John"]) "Jane"
        afterShare.1 afterShare.2).1,
      it.id = (ReceiptItem.mk 0 "Fries" 4 ["Jane", "John"]).id → "Jane" ∉ it.assignedTo) ∧
    (((Person.mk "Jane" [ReceiptItem.mk 0 "Fries" 4 ["Jane", "John"]]).items.filter
        fun i => !(i.id == (ReceiptItem.mk 0 "Fries" 4 ["Jane", "John"]).id)) = [] →
      mapGet (unassignItem (ReceiptItem.mk 0 "Fries" 4 ["Jane", "John"]) "Jane"
        afterShare.1 afterShare.2).2 "Jane" = none) ∧
    (∀ _ : ((Person.mk "Jane" [ReceiptItem.mk 0 "Fries" 4 ["Jane", "John"]]).items.filter
        fun i => !(i.id == (ReceiptItem.mk 0 "Fries" 4 ["Jane", "John"]).id)) ≠ [],
      mapGet (unassignItem (ReceiptItem.mk 0 "Fries" 4 ["Jane", "John"]) "Jane"
        afterShare.1 afterShare.2).2 "Jane" =
        some { Person.mk "Jane" [ReceiptItem.mk 0 "Fries" 4 ["Jane", "John"]] with
          items := (Person.mk "Jane" [ReceiptItem.mk 0 "Fries" 4 ["Jane", "John"]]).items.filter
            fun i => !(i.id == (ReceiptItem.mk 0 "Fries" 4 ["Jane", "John"]).id) }) :=
  unassignItem_spec (ReceiptItem.mk 0 "Fries" 4 ["Jane", "John"]) "Jane"
    afterShare.1 afterShare.2
    (Person.mk "Jane" [ReceiptItem.mk 0 "Fries" 4 ["Jane", "John"]]) (by decide)

/-! ### Reconciliation invariant helpers -/

theorem mem_applyAssignmentsItems_of_assigned (assignments : List Assignment)
    (items : List ReceiptItem) (r : ReceiptItem)
    (hr : r ∈ items) (hne : r.assignedTo ≠ []) :
    r ∈ applyAssignmentsItems assignments items := by
  rw [applyAssignmentsItems_eq]
  exact List.mem_map.mpr ⟨r, hr, by rw [if_neg hne]⟩

theorem find_matching_property (assignments : List Assignment)
    (items : List ReceiptItem) (a : Assignment)
    (ha : a ∈ assignments) (hT : TargetsUnassigned a items) :
    ∀ j, ((applyAssignmentsItems assignments items).find? fun i =>
        strToLower i.name == strToLower a.itemName) = some j →
      j ∈ applyAssignmentsItems assignments items ∧
        capitalize a.personName ∈ j.assignedTo := by
  intro j hj
  have hjmem := List.mem_of_find?_eq_some hj
  have hjname : strToLower j.name = strToLower a.itemName := by
    simpa using List.find?_some hj
  refine ⟨hjmem, ?_⟩
  rw [applyAssignmentsItems_eq] at hjmem
  rcases List.mem_map.mp hjmem with ⟨item, hitem, heq⟩
  have hname : j.name = item.name := by
    rw [← heq]
    by_cases h : item.assignedTo = [] <;> simp [h]
  have hnames : strToLower item.name = strToLower a.itemName := by
    rw [← hname]; exact hjname
  have hempty : item.assignedTo = [] := hT item hitem hnames
  have hassigned : j.assignedTo = matchingNames assignments item := by
    rw [← heq, if_pos hempty]
  rw [hassigned]
  unfold matchingNames
  apply List.mem_map.mpr
  refine ⟨a, List.mem_filter.mpr ⟨ha, ?_⟩, rfl⟩
  exact beq_iff_eq.mpr hnames.symm

theorem syncInv_addAssignment (newItems : List ReceiptItem) (ppl : PeopleMap)
    (a : Assignment)
    (hQ : SyncInv newItems ppl)
    (hfind : ∀ j, (newItems.find? fun i => strToLower i.name == strToLower a.itemName) = some j →
      j ∈ newItems ∧ capitalize a.personName ∈ j.assignedTo) :
    SyncInv newItems (addAssignmentToPeople newItems ppl a) := by
  unfold addAssignmentToPeople
  cases hf : newItems.find? fun i => strToLower i.name == strToLower a.itemName with
  | none => exact hQ
  | some j =>
    obtain ⟨hjmem, hjname⟩ := hfind j hf
    dsimp only
    cases hget : mapGet ppl (capitalize a.personName) with
    | none =>
      dsimp only [Option.getD]
      simp only [List.any_nil, Bool.false_eq_true, if_false]
      intro kp hkp r hr
      rcases mem_mapSet _ _ _ _ hkp with heq | hmem
      · rw [heq] at hr ⊢
        dsimp only at hr ⊢
        rcases List.mem_singleton.mp (by simpa using hr) with rfl
        exact ⟨hjmem, hjname⟩
      · exact hQ kp hmem.1 r hr
    | some p0 =>
      dsimp only [Option.getD]
      by_cases hdup : (p0.items.any fun i => i.id == j.id) = true
      · rw [if_pos hdup]
        exact hQ
      · rw [if_neg hdup]
        intro kp hkp r hr
        rcases mem_mapSet _ _ _ _ hkp with heq | hmem
        · rw [heq] at hr ⊢
          dsimp only at hr ⊢
          rcases List.mem_append.mp hr with hr1 | hr1
          · have hp0 : (capitalize a.personName, p0) ∈ ppl := mapGet_mem _ _ _ hget
            exact hQ (capitalize a.personName, p0) hp0 r hr1
          · rcases List.mem_singleton.mp hr1 with rfl
            exact ⟨hjmem, hjname⟩
        · exact hQ kp hmem.1 r hr

theorem syncInv_foldAssignments (newItems : List ReceiptItem)
    (l : List Assignment) (ppl : PeopleMap)
    (hQ : SyncInv newItems ppl)
    (hfind : ∀ a ∈ l, ∀ j,
      (newItems.find? fun i => strToLower i.name == strToLower a.itemName) = some j →
      j ∈ newItems ∧ capitalize a.personName ∈ j.assignedTo) :
    SyncInv newItems (l.foldl (addAssignmentToPeople newItems) ppl) := by
  induction l generalizing ppl with
  | nil => exact hQ
  | cons a l ih =>
    simp only [List.foldl_cons]
    refine ih _ ?_ ?_
    · exact syncInv_addAssignment newItems ppl a hQ (hfind a (List.mem_cons_self a l))
    · intro a' ha'
      exact hfind a' (List.mem_cons_of_mem a ha')

theorem syncInv_items_update (assignments : List Assignment)
    (items : List ReceiptItem) (people : PeopleMap)
    (hInv : SyncInv items people) :
    SyncInv (applyAssignmentsItems assignments items) people := by
  intro kp hkp r hr
  obtain ⟨hrmem, hrname⟩ := hInv kp hkp r hr
  have hne : r.assignedTo ≠ [] := by
    intro hc
    rw [hc] at hrname
    exact List.not_mem_nil _ hrname
  exact ⟨mem_applyAssignmentsItems_of_assigned assignments items r hrmem hne, hrname⟩

theorem syncInv_syncPeople (newItems : List ReceiptItem) (ppl : PeopleMap)
    (hids : (newItems.map fun it => it.id).Nodup)
    (hQ : SyncInv newItems ppl) :
    SyncInv newItems (syncPeople newItems ppl) := by
  intro kp hkp r hr
  unfold syncPeople at hkp
  rcases List.mem_map.mp hkp with ⟨kp0, hkp0, heq⟩
  rw [← heq] at hr ⊢
  dsimp only at hr ⊢
  rcases List.mem_map.mp hr with ⟨i, hi, heqr⟩
  obtain ⟨himem, hiname⟩ := hQ kp0 hkp0 i hi
  have hfind : (newItems.find? fun n => n.id == i.id) = some i := by
    cases hf : newItems.find? fun n => n.id == i.id with
    | none =>
      exfalso
      exact absurd (List.find?_eq_none.mp hf i himem) (by simp)
    | some j =>
      have hjmem := List.mem_of_find?_eq_some hf
      have hjid : j.id = i.id := by simpa using List.find?_some hf
      rw [List.inj_on_of_nodup_map hids hjmem himem hjid]
  rw [← heqr, hfind]
  exact ⟨himem, hiname⟩

theorem mem_unassignItems_keep (itemToUnassign : ReceiptItem) (p : String)
    (items : List ReceiptItem) (cur : ReceiptItem) (n : String)
    (hcur : cur ∈ items) (hn : n ∈ cur.assignedTo) (hnp : n ≠ p) :
    ∃ c ∈ unassignItems itemToUnassign p items, c.id = cur.id ∧ n ∈ c.assignedTo := by
  unfold unassignItems
  by_cases h : cur.id = itemToUnassign.id
  · refine ⟨{ cur with assignedTo := cur.assignedTo.filter fun q => !(q == p) }, ?_, rfl, ?_⟩
    · apply List.mem_map.mpr
      refine ⟨cur, hcur, ?_⟩
      simp [h]
    · exact List.mem_filter.mpr ⟨hn, by simpa using hnp⟩
  · refine ⟨cur, ?_, rfl, hn⟩
    apply List.mem_map.mpr
    refine ⟨cur, hcur, ?_⟩
    simp [beq_iff_eq, h]

theorem weakInv_unassign (itemToUnassign : ReceiptItem) (p : String)
    (items : List ReceiptItem) (people : PeopleMap)
    (hW : WeakInv items people) :
    WeakInv (unassignItems itemToUnassign p items)
      (unassignPeople itemToUnassign p people) := by
  intro kp hkp r hr
  unfold unassignPeople at hkp
  cases hget : mapGet people p with
  | none =>
    rw [hget] at hkp
    obtain ⟨cur, hcur, hcid, hcn⟩ := hW kp hkp r hr
    exact mem_unassignItems_keep itemToUnassign p items cur kp.1 hcur
      hcn (mapGet_none_forall people p hget kp hkp) |>.imp
      fun c hc => ⟨hc.1, hc.2.1.trans hcid, hc.2.2⟩
  | some person =>
    rw [hget] at hkp
    dsimp only at hkp
    by_cases hlen : ((person.items.filter fun i => !(i.id == itemToUnassign.id)).length == 0) = true
    · rw [if_pos hlen] at hkp
      obtain ⟨hmem, hne⟩ := mem_mapDelete people p kp hkp
      obtain ⟨cur, hcur, hcid, hcn⟩ := hW kp hmem r hr
      exact mem_unassignItems_keep itemToUnassign p items cur kp.1 hcur
        hcn hne |>.imp fun c hc => ⟨hc.1, hc.2.1.trans hcid, hc.2.2⟩
    · rw [if_neg hlen] at hkp
      rcases mem_mapSet _ _ _ _ hkp with heq | ⟨hmem, hne⟩
      · rw [heq] at hr ⊢
        dsimp only at hr ⊢
        have hr' := List.mem_filter.mp hr
        have hrid : r.id ≠ itemToUnassign.id := by simpa using hr'.2
        obtain ⟨cur, hcur, hcid, hcn⟩ :=
          hW (p, person) (mapGet_mem people p person hget) r hr'.1
        refine ⟨cur, ?_, hcid, hcn⟩
        unfold unassignItems
        apply List.mem_map.mpr
        refine ⟨cur, hcur, ?_⟩
        have : (cur.id == itemToUnassign.id) = false := by
          rw [hcid]
          simpa using hrid
        simp [this]
      · obtain ⟨cur, hcur, hcid, hcn⟩ := hW kp hmem r hr
        exact mem_unassignItems_keep itemToUnassign p items cur kp.1 hcur
          hcn hne |>.imp fun c hc => ⟨hc.1, hc.2.1.trans hcid, hc.2.2⟩

/-! ### C1 -/

/-- C1 counterexample: share the fries between Jane and John, then
unassign Jane; the record John still holds is the stale pre-unassignment
object, which differs from the current item (its `assignedTo` still lists
Jane), so the person-side item lists are not in sync with the current
items after every operation. -/
theorem unassign_desync_cex :
    ¬ ∀ kp ∈ afterJaneUnassigned.2, ∀ r ∈ kp.2.items,
        r ∈ afterJaneUnassigned.1 ∧ kp.1 ∈ r.assignedTo := by
  decide

/-- C1 amended: (1) after a batch application the full invariant holds —
every held record is the current item object and lists its holder —
provided it held before, item ids are distinct, and every assignment of
the batch only matches items unassigned at the start of the batch;
(2) after an unassignment only the weaker, identifier-level form is
preserved: every held record points by id at a current item listing the
holder, while the held copy itself can be stale. -/
theorem reconciliation_invariant_amended (assignments : List Assignment)
    (itemToUnassign : ReceiptItem) (p : String)
    (items : List ReceiptItem) (people : PeopleMap) :
    (SyncInv items people →
      (items.map fun it => it.id).Nodup →
      (∀ a ∈ assignments, TargetsUnassigned a items) →
      SyncInv (applyBatch assignments items people).1
        (applyBatch assignments items people).2) ∧
    (WeakInv items people →
      WeakInv (unassignItem itemToUnassign p items people).1
        (unassignItem itemToUnassign p items people).2) := by
  constructor
  · intro hInv hids hB
    show SyncInv (applyAssignmentsItems assignments items)
      (syncPeople (applyAssignmentsItems assignments items)
        (assignments.foldl (addAssignmentToPeople (applyAssignmentsItems assignments items)) people))
    have hids' : ((applyAssignmentsItems assignments items).map fun it => it.id).Nodup := by
      rw [applyAssignmentsItems_ids]
      exact hids
    apply syncInv_syncPeople _ _ hids'
    apply syncInv_foldAssignments
    · exact syncInv_items_update assignments items people hInv
    · intro a ha
      exact find_matching_property assignments items a ha (hB a ha)
  · intro hW
    exact weakInv_unassign itemToUnassign p items people hW

theorem reconciliation_invariant_amended_witness :
    SyncInv (applyBatch [Assignment.mk "david" "burger"]
        [ReceiptItem.mk 0 "burger" 10 []] []).1
      (applyBatch [Assignment.mk "david" "burger"]
        [ReceiptItem.mk 0 "burger" 10 []] []).2 ∧
    WeakInv (unassignItem (ReceiptItem.mk 0 "Fries" 4 ["Jane", "John"]) "Jane"
        afterShare.1 afterShare.2).1
      (unassignItem (ReceiptItem.mk 0 "Fries" 4 ["Jane", "John"]) "Jane"
        afterShare.1 afterShare.2).2 :=
  ⟨(reconciliation_invariant_amended [Assignment.mk "david" "burger"]
      (ReceiptItem.mk 0 "burger" 10 []) "x"
      [ReceiptItem.mk 0 "burger" 10 []] []).1
      (by decide) (by decide) (by decide),
   (reconciliation_invariant_amended [] (ReceiptItem.mk 0 "Fries" 4 ["Jane", "John"]) "Jane"
      afterShare.1 afterShare.2).2 (by decide)⟩

/-! ### Summary aggregation helpers -/

theorem personSubtotal_finset (items : List ReceiptItem) (q : Person)
    (hqN : q.items.Nodup)
    (hsub : ∀ r ∈ q.items, r ∈ items) :
    personSubtotal q = ∑ it in items.toFinset,
      if it ∈ q.items then it.price / (it.assignedTo.length : ℚ) else 0 := by
  have hsub' : q.items.toFinset ⊆ items.toFinset := by
    intro x hx
    exact List.mem_toFinset.mpr (hsub x (List.mem_toFinset.mp hx))
  rw [personSubtotal_eq_sum]
  calc (q.items.map fun it => it.price / (it.assignedTo.length : ℚ)).sum
      = q.items.toFinset.sum fun it => it.price / (it.assignedTo.length : ℚ) :=
        (List.sum_toFinset _ hqN).symm
    _ = ∑ it in items.toFinset ∩ q.items.toFinset, it.price / (it.assignedTo.length : ℚ) := by
        rw [Finset.inter_eq_right.mpr hsub']
    _ = ∑ it in items.toFinset,
          if it ∈ q.items.toFinset then it.price / (it.assignedTo.length : ℚ) else 0 :=
        (Finset.sum_ite_mem _ _ _).symm
    _ = ∑ it in items.toFinset,
          if it ∈ q.items then it.price / (it.assignedTo.length : ℚ) else 0 := by
        simp only [List.mem_toFinset]

theorem holders_card (items : List ReceiptItem) (people : PeopleMap)
    (hEC : ExactCorrespondence items people) (it : ReceiptItem) (hit : it ∈ items) :
    (people.toFinset.filter fun kp => it ∈ kp.2.items).card = it.assignedTo.length := by
  obtain ⟨hPI, hIP, hidsN, hkeysN, hAN, hPidsN⟩ := hEC
  rw [← List.toFinset_card_of_nodup (hAN it hit)]
  apply Finset.card_bij fun kp _ => kp.1
  · intro kp hkp
    have h1 := Finset.mem_filter.mp hkp
    exact List.mem_toFinset.mpr (hPI kp (List.mem_toFinset.mp h1.1) it h1.2).2
  · intro kp1 hkp1 kp2 hkp2 heq
    have h1 := List.mem_toFinset.mp (Finset.mem_filter.mp hkp1).1
    have h2 := List.mem_toFinset.mp (Finset.mem_filter.mp hkp2).1
    exact List.inj_on_of_nodup_map hkeysN h1 h2 heq
  · intro n hn
    obtain ⟨kp, hkp, hkey, hitm⟩ := hIP it hit n (List.mem_toFinset.mp hn)
    exact ⟨kp, Finset.mem_filter.mpr ⟨List.mem_toFinset.mpr hkp, hitm⟩, hkey⟩

theorem sumPersonSubtotals_eq_assigned_sum (items : List ReceiptItem) (people : PeopleMap)
    (hEC : ExactCorrespondence items people) :
    sumPersonSubtotals people =
      ∑ it in items.toFinset, if it.assignedTo = [] then 0 else it.price := by
  obtain ⟨hPI, hIP, hidsN, hkeysN, hAN, hPidsN⟩ := hEC
  have hpN : people.Nodup := List.Nodup.of_map _ hkeysN
  unfold sumPersonSubtotals
  rw [← List.sum_toFinset _ hpN]
  have step2 : ∀ kp ∈ people.toFinset, personSubtotal kp.2 =
      ∑ it in items.toFinset,
        if it ∈ kp.2.items then it.price / (it.assignedTo.length : ℚ) else 0 := by
    intro kp hkp
    have hkp' : kp ∈ people := List.mem_toFinset.mp hkp
    exact personSubtotal_finset items kp.2 (List.Nodup.of_map _ (hPidsN kp hkp'))
      fun r hr => (hPI kp hkp' r hr).1
  rw [Finset.sum_congr rfl step2]
  rw [Finset.sum_comm]
  apply Finset.sum_congr rfl
  intro it hit
  have hit' : it ∈ items := List.mem_toFinset.mp hit
  have hfilter : (∑ kp in people.toFinset,
        if it ∈ kp.2.items then it.price / (it.assignedTo.length : ℚ) else 0) =
      ∑ _kp in people.toFinset.filter fun kp => it ∈ kp.2.items,
        it.price / (it.assignedTo.length : ℚ) :=
    (Finset.sum_filter (fun kp : String × Person => it ∈ kp.2.items)
      fun _ => it.price / (it.assignedTo.length : ℚ)).symm
  rw [hfilter, Finset.sum_const,
    holders_card items people ⟨hPI, hIP, hidsN, hkeysN, hAN, hPidsN⟩ it hit']
  by_cases he : it.assignedTo = []
  · simp [he]
  · have hl0 : it.assignedTo.length ≠ 0 := by
      simpa [List.length_eq_zero] using he
    have hl : ((it.assignedTo.length : ℚ)) ≠ 0 := Nat.cast_ne_zero.mpr hl0
    rw [if_neg he, nsmul_eq_mul, mul_comm, div_mul_cancel₀ _ hl]

/-! ### C3 -/

/-- C3 counterexample: starting from a freshly extracted one-burger
receipt, a first chat message assigns the burger to Alice and a second one
names the already-assigned burger for Bob; in the resulting reachable
state the sum of the computed per-person subtotals is 20 while the
overall subtotal is 10, so the claimed inequality fails. -/
theorem sum_shares_exceeds_subtotal_cex :
    ¬ sumPersonSubtotals burgerStateTwo.people ≤ subtotal burgerStateTwo.receiptItems := by
  have h1 : burgerStateTwo.people =
      [("Alice", Person.mk "Alice" [ReceiptItem.mk 0 "burger" 10 ["Alice"]]),
       ("Bob", Person.mk "Bob" [ReceiptItem.mk 0 "burger" 10 ["Alice"]])] := by decide
  have h2 : burgerStateTwo.receiptItems = [ReceiptItem.mk 0 "burger" 10 ["Alice"]] := by
    decide
  rw [h1, h2]
  norm_num [sumPersonSubtotals, personSubtotal, subtotal]

/-- C3 amended: when the item side and the person side correspond exactly
(each held record is a current item listing its holder, every listed name
belongs to a person holding the item, and ids, keys and assignment lists
are duplicate-free) and prices are nonnegative, the sum of per-person
subtotals is at most the overall subtotal; with positive prices, equality
holds exactly when every item is assigned. -/
theorem sum_shares_le_subtotal (items : List ReceiptItem) (people : PeopleMap)
    (hEC : ExactCorrespondence items people)
    (h0 : ∀ it ∈ items, 0 ≤ it.price) :
    sumPersonSubtotals people ≤ subtotal items ∧
    ((∀ it ∈ items, 0 < it.price) →
      (sumPersonSubtotals people = subtotal items ↔ ∀ it ∈ items, it.assignedTo ≠ [])) := by
  have hiN : items.Nodup := List.Nodup.of_map _ hEC.2.2.1
  have hsub : subtotal items = ∑ it in items.toFinset, it.price := by
    rw [subtotal_eq_sum, ← List.sum_toFinset _ hiN]
  have hkey := sumPersonSubtotals_eq_assigned_sum items people hEC
  have hle : ∀ it ∈ items.toFinset,
      (if it.assignedTo = [] then 0 else it.price) ≤ it.price := by
    intro it hit
    by_cases he : it.assignedTo = []
    · rw [if_pos he]
      exact h0 it (List.mem_toFinset.mp hit)
    · rw [if_neg he]
  constructor
  · rw [hkey, hsub]
    exact Finset.sum_le_sum hle
  · intro hpos
    rw [hkey, hsub, Finset.sum_eq_sum_iff_of_le hle]
    constructor
    · intro hall it hit he
      have h1 := hall it (List.mem_toFinset.mpr hit)
      rw [if_pos he] at h1
      exact absurd h1.symm (ne_of_gt (hpos it hit))
    · intro hall it hit
      rw [if_neg (hall it (List.mem_toFinset.mp hit))]

theorem sum_shares_le_subtotal_witness :
    sumPersonSubtotals specPeople ≤ subtotal specItems ∧
    ((∀ it ∈ specItems, 0 < it.price) →
      (sumPersonSubtotals specPeople = subtotal specItems ↔
        ∀ it ∈ specItems, it.assignedTo ≠ [])) :=
  sum_shares_le_subtotal specItems specPeople (by decide) (by decide)
